import Mathlib

/-!
Shallow embedding of the Merchant Risk Review Workbench
(`src/Merchant_Risk_Model_App.py`).

The app has three pieces of logic, all embedded here:
* `load_review_queue` (lines 70-96): the review-queue SQL query over the two
  tables `MERCHANT_RISK_SCORES` and `MERCHANT_REVIEW_STATUS`;
* the submit handler and `merge_sql` (lines 129-151): validation plus a
  `MERGE` upsert keyed on `(MERCHANT_DESCRIPTION, WEEK_START_DATE)`;
* `load_monitoring_data` (lines 36-49): weekly counts grouped by
  `(week, status)`.

Tables are lists of rows.  Dates and timestamps are `Int` (a day / instant
number); SQL `NULL`-able columns are `Option`.  SQL `ORDER BY` is embedded as
`List.insertionSort` with the corresponding relation.
-/

/-- A row of `ANALYTICS_TEAM.TEAM_ANALYTICS_BI.MERCHANT_RISK_SCORES`
(read-only; columns used by the app per lines 80-89). -/
structure RiskRow where
  merchantDescription : String
  riskScore : Int
  reasonCodes : String
  weekStartDate : Int
  highRiskMerchant : Bool
deriving DecidableEq

/-- A row of `ANALYTICS_TEAM.TEAM_ANALYTICS_BI.MERCHANT_REVIEW_STATUS`.
`reviewDate` is `Option` because the column is nullable: the
`WHEN NOT MATCHED THEN INSERT` column list of `merge_sql` (line 148) does not
include `REVIEW_DATE`, so inserted rows carry SQL `NULL` there. -/
structure ReviewRow where
  merchantDescription : String
  weekStartDate : Int
  status : String
  notes : String
  reviewer : String
  riskScore : Int
  reviewDate : Option Int
deriving DecidableEq

/-- Ordering used by `ROW_NUMBER() OVER (PARTITION BY MERCHANT_DESCRIPTION
ORDER BY REVIEW_DATE DESC)` (line 75): `dateGE a b` means date `a` sorts at or
before date `b` in that descending order.  Snowflake treats `NULL` as larger
than every value, so in descending order a `NULL` review date sorts first. -/
def dateGE : Option Int → Option Int → Bool
  | none, _ => true
  | some _, none => false
  | some a, some b => b ≤ a

/-- SQL comparison `REVIEW_DATE <= cutoff` (line 86) under three-valued
logic: a `NULL` review date makes the comparison not-true. -/
def dateLE : Option Int → Int → Bool
  | none, _ => false
  | some d, cutoff => d ≤ cutoff

/-- The row with the maximal `reviewDate` (under `dateGE`, i.e. the row that
`ROW_NUMBER() ... ORDER BY REVIEW_DATE DESC` numbers 1); on ties the earlier
row in table order is kept, a deterministic stand-in for the unspecified SQL
tie-break. -/
def maxByReviewDate : List ReviewRow → Option ReviewRow
  | [] => none
  | r :: rs =>
    match maxByReviewDate rs with
    | none => some r
    | some b => if dateGE r.reviewDate b.reviewDate then some r else some b

/-- The `latest_reviews` CTE (lines 72-79) looked up for one merchant: the
review row of that merchant with the maximal `REVIEW_DATE`, or `none` when the
merchant has no review row.  The `LEFT JOIN ... ON s.MERCHANT_DESCRIPTION =
r.MERCHANT_DESCRIPTION` (line 82) joins on the merchant description only. -/
def latestReview (reviews : List ReviewRow) (m : String) : Option ReviewRow :=
  maxByReviewDate (reviews.filter (fun r => r.merchantDescription == m))

/-- The `WHERE` clause of `load_review_queue` (lines 83-88) applied to one
risk row: `HIGH_RISK_MERCHANT::STRING ILIKE 'true'` is the boolean flag, and
the left-joined latest review must be absent (`r.STATUS IS NULL`), or benign
with `REVIEW_DATE <= DATEADD(day, -90, CURRENT_DATE())`, or pending. -/
def queueFilter (reviews : List ReviewRow) (today : Int) (s : RiskRow) : Bool :=
  s.highRiskMerchant &&
    (match latestReview reviews s.merchantDescription with
     | none => true
     | some r =>
         (r.status == "Reviewed - Benign" && dateLE r.reviewDate (today - 90)) ||
         r.status == "Pending Investigation")

/-- `ORDER BY s.RISK_SCORE DESC` (line 89): row `a` may precede row `b` when
`b`'s risk score is at most `a`'s. -/
def riskDesc (a b : RiskRow) : Prop := b.riskScore ≤ a.riskScore

instance : DecidableRel riskDesc := fun a b => inferInstanceAs (Decidable (_ ≤ _))

instance : IsTotal RiskRow riskDesc := ⟨fun a b => le_total b.riskScore a.riskScore⟩

instance : IsTrans RiskRow riskDesc := ⟨fun _ _ _ h1 h2 => le_trans h2 h1⟩

/-- `load_review_queue` (lines 70-96): filter the risk table by the `WHERE`
clause against the latest review per merchant, then `ORDER BY RISK_SCORE
DESC`.  `today` is `CURRENT_DATE()`. -/
def load_review_queue (risks : List RiskRow) (reviews : List ReviewRow)
    (today : Int) : List RiskRow :=
  List.insertionSort riskDesc (risks.filter (queueFilter reviews today))

/-- The `ON` condition of `merge_sql` (line 146):
`t.MERCHANT_DESCRIPTION = s.MERCHANT_DESCRIPTION AND t.WEEK_START_DATE =
s.WEEK_START_DATE`. -/
def keyMatch (m : String) (w : Int) (t : ReviewRow) : Bool :=
  t.merchantDescription == m && t.weekStartDate == w

/-- The `WHEN MATCHED THEN UPDATE SET t.STATUS = s.STATUS, t.NOTES = s.NOTES,
t.REVIEWER = s.REVIEWER, t.REVIEW_DATE = CURRENT_TIMESTAMP()` action of
`merge_sql` (line 147) applied to one row: a row matching the key gets the
new status, notes, reviewer and the write-time review date; every other row
is left as it is. -/
def updateRow (m : String) (w : Int) (st notes user : String) (now : Int)
    (t : ReviewRow) : ReviewRow :=
  if keyMatch m w t then
    { t with status := st, notes := notes, reviewer := user,
             reviewDate := some now }
  else t

/-- The row built by `WHEN NOT MATCHED THEN INSERT (MERCHANT_DESCRIPTION,
STATUS, NOTES, REVIEWER, RISK_SCORE, WEEK_START_DATE) VALUES (...)`
(line 148): `REVIEW_DATE` is not in the insert column list, so the inserted
row's review date is `NULL`. -/
def insertRow (m : String) (w : Int) (st notes user : String)
    (riskScore : Int) : ReviewRow :=
  { merchantDescription := m, weekStartDate := w, status := st,
    notes := notes, reviewer := user, riskScore := riskScore,
    reviewDate := none }

/-- Executing the `MERGE` of `merge_sql` (lines 135-151) on the table state:
rows matching the `ON` key are updated, and when no row matches the key a new
row is inserted.  `now` is `CURRENT_TIMESTAMP()`. -/
def mergeReviewStatus (tbl : List ReviewRow) (m : String) (w : Int)
    (st notes user : String) (riskScore : Int) (now : Int) : List ReviewRow :=
  if tbl.any (keyMatch m w) then
    tbl.map (updateRow m w st notes user now)
  else
    tbl ++ [insertRow m w st notes user riskScore]

/-- The submit handler (lines 129-151): with no status chosen it shows
`"Please select a status."` and performs no write; otherwise it executes the
`MERGE`.  Returns the new table state and the validation message, if any. -/
def submitReview (tbl : List ReviewRow) (m : String) (riskScore : Int)
    (w : Int) (status : Option String) (notes user : String) (now : Int) :
    List ReviewRow × Option String :=
  match status with
  | none => (tbl, some "Please select a status.")
  | some st => (mergeReviewStatus tbl m w st notes user riskScore now, none)

/-- `DATE_TRUNC('week', WEEK_START_DATE)::DATE` (line 39): truncation of a
day number to the start of its week (the greatest multiple-of-7 boundary not
after it; `Int.emod` is non-negative, so `truncWeek d ≤ d` always). -/
def truncWeek (d : Int) : Int := d - d % 7

/-- The `GROUP BY 1, 2` key of `load_monitoring_data` (line 43): the
truncated week together with the status. -/
def analyticsKey (r : ReviewRow) : Int × String := (truncWeek r.weekStartDate, r.status)

/-- `ORDER BY 1 DESC, 2` (line 44) on result tuples
`(REVIEW_WEEK, STATUS, MERCHANT_COUNT)`: week descending, then status
ascending. -/
def weekStatusLE (a b : Int × String × Nat) : Prop :=
  b.1 < a.1 ∨ (a.1 = b.1 ∧ a.2.1 ≤ b.2.1)

instance : DecidableRel weekStatusLE := fun a b =>
  inferInstanceAs (Decidable (_ ∨ _))

instance : IsTotal (Int × String × Nat) weekStatusLE where
  total a b := by
    rcases lt_trichotomy a.1 b.1 with h | h | h
    · exact Or.inr (Or.inl h)
    · rcases le_total a.2.1 b.2.1 with h2 | h2
      · exact Or.inl (Or.inr ⟨h, h2⟩)
      · exact Or.inr (Or.inr ⟨h.symm, h2⟩)
    · exact Or.inl (Or.inl h)

instance : IsTrans (Int × String × Nat) weekStatusLE where
  trans a b c hab hbc := by
    rcases hab with h1 | ⟨h1, h1s⟩
    · rcases hbc with h2 | ⟨h2, _⟩
      · exact Or.inl (lt_trans h2 h1)
      · exact Or.inl (h2 ▸ h1)
    · rcases hbc with h2 | ⟨h2, h2s⟩
      · exact Or.inl (h1 ▸ h2)
      · exact Or.inr ⟨h1.trans h2, le_trans h1s h2s⟩

/-- `load_monitoring_data` (lines 36-49): truncate each row's week-start to
week granularity, group by `(week, status)`, count rows per group
(`COUNT(*)`), and order by week descending then status ascending. -/
def load_monitoring_data (tbl : List ReviewRow) : List (Int × String × Nat) :=
  List.insertionSort weekStatusLE
    (((tbl.map analyticsKey).dedup).map
      (fun k => (k.1, k.2, tbl.countP (fun r => decide (analyticsKey r = k)))))

/-- Python `.replace("'", "''")` on text, as applied to the merchant
description and the notes inside `merge_sql` (lines 139 and 141) and to the
user name at line 29: every single-quote character is doubled. -/
def escapeQuotes : List Char → List Char
  | [] => []
  | c :: cs =>
      if c = '\'' then '\'' :: '\'' :: escapeQuotes cs else c :: escapeQuotes cs

/-- Line 29: `current_user = user_df.iloc[0, 0].replace("'", "''")`. -/
def current_user (rawUser : List Char) : List Char := escapeQuotes rawUser

/-- The three values offered by the status selectbox (line 125); the submit
handler only ever interpolates one of these into `merge_sql`. -/
inductive ReviewStatus
  | benign
  | blocked
  | pending
deriving DecidableEq

/-- The literal text of each selectbox value (line 125). -/
def statusText : ReviewStatus → List Char
  | .benign => "Reviewed - Benign".data
  | .blocked => "Reviewed - Blocked".data
  | .pending => "Pending Investigation".data

/-- Text of `merge_sql` up to the opening quote of the merchant description
(whitespace normalized; lines 136-139). -/
def sqlPart0 : List Char :=
  "MERGE INTO ANALYTICS_TEAM.TEAM_ANALYTICS_BI.MERCHANT_REVIEW_STATUS t USING ( SELECT ".data

/-- Text between the merchant-description literal and the status literal. -/
def sqlPart1 : List Char := " AS MERCHANT_DESCRIPTION, ".data

/-- Text between the status literal and the notes literal. -/
def sqlPart2 : List Char := " AS STATUS, ".data

/-- Text between the notes literal and the reviewer literal. -/
def sqlPart3 : List Char := " AS NOTES, ".data

/-- Text between the reviewer literal and the (unquoted) risk score. -/
def sqlPart4 : List Char := " AS REVIEWER, ".data

/-- Text between the risk score and the week-start-date literal. -/
def sqlPart5 : List Char := " AS RISK_SCORE, ".data

/-- Text of `merge_sql` after the week-start-date literal (whitespace
normalized; lines 144-148). -/
def sqlPart6 : List Char :=
  (" AS WEEK_START_DATE ) s ON t.MERCHANT_DESCRIPTION = s.MERCHANT_DESCRIPTION AND t.WEEK_START_DATE = s.WEEK_START_DATE "
    ++ "WHEN MATCHED THEN UPDATE SET t.STATUS = s.STATUS, t.NOTES = s.NOTES, t.REVIEWER = s.REVIEWER, t.REVIEW_DATE = CURRENT_TIMESTAMP() "
    ++ "WHEN NOT MATCHED THEN INSERT (MERCHANT_DESCRIPTION, STATUS, NOTES, REVIEWER, RISK_SCORE, WEEK_START_DATE) VALUES (s.MERCHANT_DESCRIPTION, s.STATUS, s.NOTES, s.REVIEWER, s.RISK_SCORE, s.WEEK_START_DATE);").data

/-- The SQL text built by the f-string at lines 135-149: the merchant
description and the notes are interpolated through `.replace("'", "''")`, the
status selectbox value and the already-escaped `current_user` are interpolated
verbatim, the risk score is interpolated unquoted, and the week start date is
interpolated quoted but unescaped.  `user` is the text of `{current_user}`,
`riskText` the rendering of `{merchant_details['RISK_SCORE']}`, and
`weekText` the rendering of `{merchant_details['WEEK_START_DATE']}`. -/
def merge_sql (merchant : List Char) (st : ReviewStatus)
    (notes user riskText weekText : List Char) : List Char :=
  sqlPart0 ++ '\'' ::
    (escapeQuotes merchant ++ '\'' ::
      (sqlPart1 ++ '\'' ::
        (statusText st ++ '\'' ::
          (sqlPart2 ++ '\'' ::
            (escapeQuotes notes ++ '\'' ::
              (sqlPart3 ++ '\'' ::
                (user ++ '\'' ::
                  (sqlPart4 ++
                    (riskText ++
                      (sqlPart5 ++ '\'' ::
                        (weekText ++ '\'' :: sqlPart6)))))))))))

/-- SQL string-literal scanner: `scanLit inside text` walks `text` keeping
track of whether the current position is inside a single-quoted literal; a
doubled quote inside a literal is an escaped quote (maximal munch).  It
returns `true` exactly when every literal that is opened is also closed by
the end of the text, i.e. when the statement's string literals are
well-formed. -/
def scanLit : Bool → List Char → Bool
  | inside, [] => !inside
  | false, c :: rest => if c = '\'' then scanLit true rest else scanLit false rest
  | true, c :: rest =>
      if c = '\'' then
        match rest with
        | [] => true
        | d :: rest2 =>
            if d = '\'' then scanLit true rest2 else scanLit false (d :: rest2)
      else scanLit true rest

/-- No single-quote character occurs in the text. -/
def noQuote (l : List Char) : Bool := l.all (fun c => !(c == '\''))

/-- The text is empty or does not start with a single quote. -/
def headNotQuote : List Char → Bool
  | [] => true
  | c :: _ => !(c == '\'')

/-- A concrete risk row (the §8 scenario row of the spec), used to
instantiate theorems at concrete inputs. -/
def acmeRisk : RiskRow :=
  { merchantDescription := "Acme Co", riskScore := 91,
    reasonCodes := "HIGH_CHARGEBACK_RATE", weekStartDate := 0,
    highRiskMerchant := true }

/-- A concrete review row with status `Reviewed - Blocked`, used to
instantiate theorems at concrete inputs. -/
def blockedReview : ReviewRow :=
  { merchantDescription := "Acme Co", weekStartDate := 0,
    status := "Reviewed - Blocked", notes := "", reviewer := "ALICE",
    riskScore := 91, reviewDate := some 500 }

/-- A concrete review row with status `Reviewed - Benign` reviewed at day
`d`, used to instantiate theorems at concrete inputs. -/
def benignReview (d : Int) : ReviewRow :=
  { merchantDescription := "Acme Co", weekStartDate := 0,
    status := "Reviewed - Benign", notes := "", reviewer := "ALICE",
    riskScore := 91, reviewDate := some d }

/-! ## Lemmas about the SQL-literal scanner and quoting -/


theorem noQuote_cons {c : Char} {cs : List Char} (h : noQuote (c :: cs) = true) :
    ¬c = '\'' ∧ noQuote cs = true := by
  simpa [noQuote] using h

theorem scanLit_append_noQuote (t : List Char) (h : noQuote t = true) :
    ∀ (b : Bool) (l : List Char), scanLit b (t ++ l) = scanLit b l := by
  induction t with
  | nil => intro b l; rfl
  | cons c cs ih =>
      intro b l
      obtain ⟨hc, hcs⟩ := noQuote_cons h
      cases b with
      | false =>
          show scanLit false (c :: (cs ++ l)) = scanLit false l
          rw [show scanLit false (c :: (cs ++ l)) = scanLit false (cs ++ l) by
            rw [scanLit.eq_def]; simp [hc]]
          exact ih hcs false l
      | true =>
          show scanLit true (c :: (cs ++ l)) = scanLit true l
          rw [show scanLit true (c :: (cs ++ l)) = scanLit true (cs ++ l) by
            rw [scanLit.eq_def]; simp [hc]]
          exact ih hcs true l

theorem scanLit_open (l : List Char) : scanLit false ('\'' :: l) = scanLit true l := rfl

theorem scanLit_close (l : List Char) (h : headNotQuote l = true) :
    scanLit true ('\'' :: l) = scanLit false l := by
  cases l with
  | nil => rw [scanLit.eq_def]; simp only [Bool.not_false]; decide
  | cons d rest =>
      have hd : ¬d = '\'' := by simpa [headNotQuote] using h
      rw [scanLit.eq_def]
      simp [hd]

theorem scanLit_escape (s : List Char) :
    ∀ l : List Char, headNotQuote l = true →
      scanLit true (escapeQuotes s ++ '\'' :: l) = scanLit false l := by
  induction s with
  | nil =>
      intro l h
      simpa [escapeQuotes] using scanLit_close l h
  | cons c cs ih =>
      intro l h
      by_cases hc : c = '\''
      · subst hc
        rw [show escapeQuotes ('\'' :: cs) = '\'' :: '\'' :: escapeQuotes cs by
          simp [escapeQuotes]]
        rw [show scanLit true (('\'' :: '\'' :: escapeQuotes cs) ++ '\'' :: l)
            = scanLit true (escapeQuotes cs ++ '\'' :: l) by
          simp only [List.cons_append]
          rw [scanLit.eq_def]
          simp]
        exact ih l h
      · rw [show escapeQuotes (c :: cs) = c :: escapeQuotes cs by
          simp [escapeQuotes, hc]]
        rw [show scanLit true ((c :: escapeQuotes cs) ++ '\'' :: l)
            = scanLit true (escapeQuotes cs ++ '\'' :: l) by
          simp only [List.cons_append]
          rw [scanLit.eq_def]
          simp [hc]]
        exact ih l h

theorem headNotQuote_append_left (t l : List Char) (h1 : headNotQuote t = true)
    (h2 : t ≠ []) : headNotQuote (t ++ l) = true := by
  cases t with
  | nil => exact absurd rfl h2
  | cons c cs => simpa [headNotQuote] using h1

set_option maxRecDepth 8192 in
/-- C10: the SQL text built by `merge_sql` embeds the merchant description,
the notes and the reviewer identity with every single quote doubled
(`escapeQuotes`, the embedding of `.replace("'", "''")`), embeds the status
selectbox value verbatim (each of the three enum strings is quote-free), and
consequently the constructed statement's string literals are well-formed for
every input, including inputs containing single quotes. -/
theorem c10_merge_sql_escaping (merchant notes rawUser riskText weekText : List Char)
    (st : ReviewStatus)
    (hr : noQuote riskText = true) (hw : noQuote weekText = true) :
    scanLit false
        (merge_sql merchant st notes (current_user rawUser) riskText weekText) = true ∧
      noQuote (statusText st) = true := by
  constructor
  · simp only [merge_sql, current_user]
    rw [scanLit_append_noQuote sqlPart0 (by decide) false]
    rw [scanLit_open]
    rw [scanLit_escape merchant _ (headNotQuote_append_left sqlPart1 _ (by decide) (by decide))]
    rw [scanLit_append_noQuote sqlPart1 (by decide) false]
    rw [scanLit_open]
    rw [scanLit_append_noQuote (statusText st) (by cases st <;> decide) true]
    rw [scanLit_close _ (headNotQuote_append_left sqlPart2 _ (by decide) (by decide))]
    rw [scanLit_append_noQuote sqlPart2 (by decide) false]
    rw [scanLit_open]
    rw [scanLit_escape notes _ (headNotQuote_append_left sqlPart3 _ (by decide) (by decide))]
    rw [scanLit_append_noQuote sqlPart3 (by decide) false]
    rw [scanLit_open]
    rw [scanLit_escape rawUser _ (headNotQuote_append_left sqlPart4 _ (by decide) (by decide))]
    rw [scanLit_append_noQuote sqlPart4 (by decide) false]
    rw [scanLit_append_noQuote riskText hr false]
    rw [scanLit_append_noQuote sqlPart5 (by decide) false]
    rw [scanLit_open]
    rw [scanLit_append_noQuote weekText hw true]
    rw [scanLit_close _ (by decide)]
    decide
  · cases st <;> decide

/-! ## Lemmas about the latest-review selection and the queue -/

theorem dateGE_refl (a : Option Int) : dateGE a a = true := by
  cases a <;> simp [dateGE]

theorem dateGE_total (a b : Option Int) : dateGE a b = true ∨ dateGE b a = true := by
  cases a <;> cases b <;> simp [dateGE] <;> omega

theorem dateGE_trans {a b c : Option Int} (h1 : dateGE a b = true)
    (h2 : dateGE b c = true) : dateGE a c = true := by
  cases a <;> cases b <;> cases c <;> simp [dateGE] at h1 h2 ⊢ <;> omega

theorem maxByReviewDate_eq_none {l : List ReviewRow} :
    maxByReviewDate l = none ↔ l = [] := by
  cases l with
  | nil => simp [maxByReviewDate]
  | cons r rs =>
      simp only [maxByReviewDate]
      constructor
      · intro h
        exfalso
        cases hm : maxByReviewDate rs with
        | none => simp only [hm] at h; exact Option.noConfusion h
        | some b =>
            simp only [hm] at h
            by_cases hd : dateGE r.reviewDate b.reviewDate = true
            · rw [if_pos hd] at h; exact Option.noConfusion h
            · rw [if_neg hd] at h; exact Option.noConfusion h
      · intro h; exact List.noConfusion h

theorem maxByReviewDate_cons_isSome (r : ReviewRow) (rs : List ReviewRow) :
    ∃ b, maxByReviewDate (r :: rs) = some b := by
  simp only [maxByReviewDate]
  cases maxByReviewDate rs with
  | none => exact ⟨r, rfl⟩
  | some b =>
      by_cases hd : dateGE r.reviewDate b.reviewDate = true
      · exact ⟨r, if_pos hd⟩
      · exact ⟨b, if_neg hd⟩

theorem maxByReviewDate_mem : ∀ {l : List ReviewRow} {r : ReviewRow},
    maxByReviewDate l = some r → r ∈ l := by
  intro l
  induction l with
  | nil => intro r h; exact Option.noConfusion h
  | cons x xs ih =>
      intro r h
      simp only [maxByReviewDate] at h
      cases hm : maxByReviewDate xs with
      | none =>
          simp only [hm] at h
          injection h with h2
          subst h2
          exact List.mem_cons_self x xs
      | some b =>
          simp only [hm] at h
          by_cases hd : dateGE x.reviewDate b.reviewDate = true
          · rw [if_pos hd] at h
            injection h with h2
            subst h2
            exact List.mem_cons_self x xs
          · rw [if_neg hd] at h
            injection h with h2
            subst h2
            exact List.mem_cons_of_mem x (ih hm)

theorem maxByReviewDate_ge : ∀ {l : List ReviewRow} {r : ReviewRow},
    maxByReviewDate l = some r → ∀ x ∈ l, dateGE r.reviewDate x.reviewDate = true := by
  intro l
  induction l with
  | nil => intro r h; exact absurd h (by simp [maxByReviewDate])
  | cons y ys ih =>
      intro r h x hx
      simp only [maxByReviewDate] at h
      cases hm : maxByReviewDate ys with
      | none =>
          simp only [hm] at h
          injection h with h2
          subst h2
          have hys : ys = [] := maxByReviewDate_eq_none.mp hm
          subst hys
          rw [List.mem_singleton] at hx
          subst hx
          exact dateGE_refl _
      | some b =>
          simp only [hm] at h
          by_cases hd : dateGE y.reviewDate b.reviewDate = true
          · rw [if_pos hd] at h
            injection h with h2
            subst h2
            rcases List.mem_cons.mp hx with hxy | hx2
            · subst hxy; exact dateGE_refl _
            · exact dateGE_trans hd (ih hm x hx2)
          · rw [if_neg hd] at h
            injection h with h2
            subst h2
            rcases List.mem_cons.mp hx with hxy | hx2
            · rw [hxy]
              exact (dateGE_total y.reviewDate b.reviewDate).resolve_left hd
            · exact ih hm x hx2

theorem latestReview_mem {reviews : List ReviewRow} {m : String} {r : ReviewRow}
    (h : latestReview reviews m = some r) :
    r ∈ reviews ∧ r.merchantDescription = m := by
  have hmem := List.mem_filter.mp (maxByReviewDate_mem h)
  exact ⟨hmem.1, by simpa using hmem.2⟩

theorem latestReview_ge {reviews : List ReviewRow} {m : String} {r : ReviewRow}
    (h : latestReview reviews m = some r) :
    ∀ x ∈ reviews, x.merchantDescription = m → dateGE r.reviewDate x.reviewDate = true := by
  intro x hx hm
  exact maxByReviewDate_ge h x (List.mem_filter.mpr ⟨hx, by simp [hm]⟩)

theorem latestReview_isSome {reviews : List ReviewRow} {m : String} {x : ReviewRow}
    (hx : x ∈ reviews) (hm : x.merchantDescription = m) :
    ∃ r, latestReview reviews m = some r := by
  have hxf : x ∈ reviews.filter (fun r => r.merchantDescription == m) :=
    List.mem_filter.mpr ⟨hx, by simp [hm]⟩
  unfold latestReview
  cases hf : reviews.filter (fun r => r.merchantDescription == m) with
  | nil => rw [hf] at hxf; exact absurd hxf (List.not_mem_nil x)
  | cons a as => exact maxByReviewDate_cons_isSome a as

theorem mem_load_review_queue {risks : List RiskRow} {reviews : List ReviewRow}
    {today : Int} {s : RiskRow} :
    s ∈ load_review_queue risks reviews today ↔
      s ∈ risks ∧ queueFilter reviews today s = true := by
  unfold load_review_queue
  rw [List.mem_insertionSort, List.mem_filter]

theorem queueFilter_iff {reviews : List ReviewRow} {today : Int} {s : RiskRow} :
    queueFilter reviews today s = true ↔
      s.highRiskMerchant = true ∧
        (latestReview reviews s.merchantDescription = none ∨
          (∃ rr, latestReview reviews s.merchantDescription = some rr ∧
              rr.status = "Reviewed - Benign" ∧
              ∃ d, rr.reviewDate = some d ∧ d ≤ today - 90) ∨
          (∃ rr, latestReview reviews s.merchantDescription = some rr ∧
              rr.status = "Pending Investigation")) := by
  unfold queueFilter
  cases hl : latestReview reviews s.merchantDescription with
  | none => simp [hl]
  | some r =>
      simp only [hl, Bool.and_eq_true, Bool.or_eq_true, beq_iff_eq]
      constructor
      · rintro ⟨hh, hcond⟩
        refine ⟨hh, ?_⟩
        rcases hcond with ⟨hb, hdle⟩ | hp
        · cases hd : r.reviewDate with
          | none => rw [hd] at hdle; exact absurd hdle (by simp [dateLE])
          | some d =>
              rw [hd] at hdle
              exact Or.inr (Or.inl ⟨r, rfl, hb, d, hd, by simpa [dateLE] using hdle⟩)
        · exact Or.inr (Or.inr ⟨r, rfl, hp⟩)
      · rintro ⟨hh, hnone | ⟨r2, hr2, hb, d, hd, hle⟩ | ⟨r2, hr2, hp⟩⟩
        · exact absurd hnone (by simp)
        · injection hr2 with h2
          subst h2
          refine ⟨hh, Or.inl ⟨hb, ?_⟩⟩
          rw [hd]
          simpa [dateLE] using hle
        · injection hr2 with h2
          subst h2
          exact ⟨hh, Or.inr hp⟩

/-! ## Claim theorems for the review queue -/

/-- C1: for every state of the two tables, a risk row appears in the result
of `load_review_queue` iff it is a row of the risk table whose high-risk flag
is true and either (a) the merchant has no review row, or (b) its latest
review is `Reviewed - Benign` with a review date at least 90 days before the
current date, or (c) its latest review is `Pending Investigation`; in
particular a merchant whose latest review is `Reviewed - Blocked` is never in
the queue. -/
theorem c1_queue_membership (risks : List RiskRow) (reviews : List ReviewRow)
    (today : Int) :
    (∀ s : RiskRow,
        s ∈ load_review_queue risks reviews today ↔
          s ∈ risks ∧ s.highRiskMerchant = true ∧
            (latestReview reviews s.merchantDescription = none ∨
              (∃ rr, latestReview reviews s.merchantDescription = some rr ∧
                  rr.status = "Reviewed - Benign" ∧
                  ∃ d, rr.reviewDate = some d ∧ d ≤ today - 90) ∨
              (∃ rr, latestReview reviews s.merchantDescription = some rr ∧
                  rr.status = "Pending Investigation"))) ∧
    (∀ (s : RiskRow) (r : ReviewRow),
        latestReview reviews s.merchantDescription = some r →
        r.status = "Reviewed - Blocked" →
        s ∉ load_review_queue risks reviews today) := by
  constructor
  · intro s
    rw [mem_load_review_queue, queueFilter_iff]
  · rintro s r hl hblocked hmem
    rw [mem_load_review_queue, queueFilter_iff] at hmem
    obtain ⟨-, -, hdisj⟩ := hmem
    rcases hdisj with hnone | ⟨r2, hr2, hb, -⟩ | ⟨r2, hr2, hp⟩
    · rw [hl] at hnone
      exact Option.noConfusion hnone
    · rw [hl] at hr2
      injection hr2 with h2
      subst h2
      rw [hblocked] at hb
      exact absurd hb (by decide)
    · rw [hl] at hr2
      injection hr2 with h2
      subst h2
      rw [hblocked] at hp
      exact absurd hp (by decide)

theorem c1_witness :
    latestReview [blockedReview] acmeRisk.merchantDescription = some blockedReview ∧
      blockedReview.status = "Reviewed - Blocked" ∧
      acmeRisk ∉ load_review_queue [acmeRisk] [blockedReview] 1000 :=
  ⟨by decide, by decide,
    (c1_queue_membership [acmeRisk] [blockedReview] 1000).2 acmeRisk blockedReview
      (by decide) (by decide)⟩

/-- C3: for a high-risk merchant whose latest review is `Reviewed - Benign`
with review date `d`, the merchant is in the queue iff `d ≤ today - 90`
— the boundary is inclusive: a review dated exactly 90 days before the
current date qualifies for the queue. -/
theorem c3_benign_expiry_boundary (risks : List RiskRow)
    (reviews : List ReviewRow) (today : Int) (s : RiskRow) (r : ReviewRow)
    (d : Int) (hs : s ∈ risks) (hh : s.highRiskMerchant = true)
    (hl : latestReview reviews s.merchantDescription = some r)
    (hb : r.status = "Reviewed - Benign") (hd : r.reviewDate = some d) :
    s ∈ load_review_queue risks reviews today ↔ d ≤ today - 90 := by
  rw [mem_load_review_queue, queueFilter_iff]
  constructor
  · rintro ⟨-, -, hnone | ⟨r2, hr2, -, d2, hd2, hle⟩ | ⟨r2, hr2, hp⟩⟩
    · rw [hl] at hnone
      exact Option.noConfusion hnone
    · rw [hl] at hr2
      injection hr2 with h2
      subst h2
      rw [hd] at hd2
      injection hd2 with h3
      subst h3
      exact hle
    · rw [hl] at hr2
      injection hr2 with h2
      subst h2
      rw [hb] at hp
      exact absurd hp (by decide)
  · intro hle
    exact ⟨hs, hh, Or.inr (Or.inl ⟨r, hl, hb, d, hd, hle⟩)⟩

theorem c3_witness :
    acmeRisk ∈ [acmeRisk] ∧ acmeRisk.highRiskMerchant = true ∧
      latestReview [benignReview 10] acmeRisk.merchantDescription =
        some (benignReview 10) ∧
      (benignReview 10).status = "Reviewed - Benign" ∧
      (benignReview 10).reviewDate = some 10 ∧
      (acmeRisk ∈ load_review_queue [acmeRisk] [benignReview 10] 100 ↔
        (10 : Int) ≤ 100 - 90) :=
  ⟨by decide, by decide, by decide, by decide, by decide,
    c3_benign_expiry_boundary [acmeRisk] [benignReview 10] 100 acmeRisk
      (benignReview 10) 10 (by decide) (by decide) (by decide) (by decide)
      (by decide)⟩

/-- C4: the latest-review projection yields, per merchant, one review row of
that merchant whose review date is maximal among the merchant's rows (and it
yields a row whenever the merchant has any review row), and the join to the
risk table is on the merchant description only: the queue condition of a risk
row is unchanged under any change of the risk row's week start date. -/
theorem c4_latest_review_join (reviews : List ReviewRow) (m : String) :
    (∀ r, latestReview reviews m = some r →
        r ∈ reviews ∧ r.merchantDescription = m ∧
          ∀ x ∈ reviews, x.merchantDescription = m →
            dateGE r.reviewDate x.reviewDate = true) ∧
    (∀ x ∈ reviews, x.merchantDescription = m →
        ∃ r, latestReview reviews m = some r) ∧
    (∀ (today : Int) (s : RiskRow) (w : Int),
        queueFilter reviews today { s with weekStartDate := w } =
          queueFilter reviews today s) := by
  refine ⟨?_, ?_, ?_⟩
  · intro r h
    obtain ⟨hmem, hm⟩ := latestReview_mem h
    exact ⟨hmem, hm, latestReview_ge h⟩
  · intro x hx hm
    exact latestReview_isSome hx hm
  · intro today s w
    rfl

theorem c4_witness :
    dateGE blockedReview.reviewDate blockedReview.reviewDate = true ∧
      queueFilter [blockedReview] 100 { acmeRisk with weekStartDate := 7 } =
        queueFilter [blockedReview] 100 acmeRisk :=
  ⟨((c4_latest_review_join [blockedReview] "Acme Co").1 blockedReview
      (by decide)).2.2 blockedReview (by decide) (by decide),
    (c4_latest_review_join [blockedReview] "Acme Co").2.2 100 acmeRisk 7⟩

/-- C5: submitting with no status selected performs zero writes — the table
is returned unchanged — and yields the validation message
`Please select a status.`. -/
theorem c5_missing_status_no_write (tbl : List ReviewRow) (m : String)
    (riskScore : Int) (w : Int) (notes user : String) (now : Int) :
    submitReview tbl m riskScore w none notes user now =
      (tbl, some "Please select a status.") := rfl

/-- C8: the queue returned by `load_review_queue` is sorted by risk score in
descending order: every row's risk score is at least that of every later
row, in particular of the adjacent next row. -/
theorem c8_queue_sorted_desc (risks : List RiskRow) (reviews : List ReviewRow)
    (today : Int) :
    List.Pairwise (fun a b => b.riskScore ≤ a.riskScore)
      (load_review_queue risks reviews today) :=
  List.sorted_insertionSort riskDesc (risks.filter (queueFilter reviews today))

/-! ## Lemmas about the MERGE upsert -/

theorem keyMatch_updateRow (m : String) (w : Int) (st notes user : String)
    (now : Int) (m' : String) (w' : Int) (t : ReviewRow) :
    keyMatch m' w' (updateRow m w st notes user now t) = keyMatch m' w' t := by
  unfold updateRow
  by_cases h : keyMatch m w t = true
  · rw [if_pos h]; rfl
  · rw [if_neg h]

theorem comp_keyMatch_updateRow (m : String) (w : Int) (st notes user : String)
    (now : Int) (m' : String) (w' : Int) :
    keyMatch m' w' ∘ updateRow m w st notes user now = keyMatch m' w' :=
  funext fun t => keyMatch_updateRow m w st notes user now m' w' t

theorem keyMatch_insertRow_self (m : String) (w : Int) (st notes user : String)
    (rs : Int) : keyMatch m w (insertRow m w st notes user rs) = true := by
  simp [keyMatch, insertRow]

theorem countP_mergeReviewStatus_le_one (tbl : List ReviewRow) (m : String)
    (w : Int) (m' : String) (w' : Int) (st notes user : String) (rs now : Int)
    (hinv : tbl.countP (keyMatch m w) ≤ 1) :
    (mergeReviewStatus tbl m' w' st notes user rs now).countP (keyMatch m w) ≤ 1 := by
  unfold mergeReviewStatus
  by_cases hany : tbl.any (keyMatch m' w') = true
  · rw [if_pos hany, List.countP_map, comp_keyMatch_updateRow]
    exact hinv
  · rw [if_neg hany, List.countP_append]
    by_cases hk : keyMatch m w (insertRow m' w' st notes user rs) = true
    · have hm : m' = m ∧ w' = w := by
        simpa [keyMatch, insertRow] using hk
      obtain ⟨rfl, rfl⟩ := hm
      have hzero : tbl.countP (keyMatch m' w') = 0 := by
        rw [List.countP_eq_zero]
        intro a ha hka
        exact hany (List.any_eq_true.mpr ⟨a, ha, hka⟩)
      rw [hzero]
      simp [List.countP_cons, hk]
    · have : List.countP (keyMatch m w) [insertRow m' w' st notes user rs] = 0 := by
        simp [List.countP_cons, hk]
      rw [this]
      simpa using hinv

theorem any_mergeReviewStatus_self (tbl : List ReviewRow) (m : String) (w : Int)
    (st notes user : String) (rs now : Int) :
    (mergeReviewStatus tbl m w st notes user rs now).any (keyMatch m w) = true := by
  unfold mergeReviewStatus
  by_cases hany : tbl.any (keyMatch m w) = true
  · rw [if_pos hany, List.any_map, comp_keyMatch_updateRow]
    exact hany
  · rw [if_neg hany, List.any_append]
    simp [keyMatch_insertRow_self]

theorem countP_mergeReviewStatus_self (tbl : List ReviewRow) (m : String)
    (w : Int) (st notes user : String) (rs now : Int)
    (hinv : tbl.countP (keyMatch m w) ≤ 1) :
    (mergeReviewStatus tbl m w st notes user rs now).countP (keyMatch m w) = 1 := by
  unfold mergeReviewStatus
  by_cases hany : tbl.any (keyMatch m w) = true
  · rw [if_pos hany, List.countP_map, comp_keyMatch_updateRow]
    have hpos : 0 < tbl.countP (keyMatch m w) :=
      List.countP_pos_iff.mpr (List.any_eq_true.mp hany)
    omega
  · rw [if_neg hany, List.countP_append]
    have hzero : tbl.countP (keyMatch m w) = 0 := by
      rw [List.countP_eq_zero]
      intro a ha hka
      exact hany (List.any_eq_true.mpr ⟨a, ha, hka⟩)
    rw [hzero]
    simp [List.countP_cons, keyMatch_insertRow_self]

theorem mem_map_updateRow_fields {tbl : List ReviewRow} {m : String} {w : Int}
    {st notes user : String} {now : Int} {x : ReviewRow}
    (hx : x ∈ tbl.map (updateRow m w st notes user now))
    (hk : keyMatch m w x = true) :
    x.status = st ∧ x.notes = notes ∧ x.reviewer = user ∧
      x.reviewDate = some now := by
  obtain ⟨y, hy, hxy⟩ := List.mem_map.mp hx
  subst hxy
  by_cases hky : keyMatch m w y = true
  · simp [updateRow, hky]
  · rw [keyMatch_updateRow] at hk
    exact absurd hk hky

/-! ## Claim theorems for the upsert -/

/-- C2: the upsert keeps at most one review row per
`(merchant_description, week_start_date)` key: starting from a table with at
most one row for the key, any submit preserves that bound, and submitting
twice for the same key leaves exactly one row for it, whose status, notes,
reviewer and review date are those of the second submission. -/
theorem c2_upsert_single_row (tbl : List ReviewRow) (m : String) (w : Int)
    (st1 n1 u1 : String) (rs1 t1 : Int) (st2 n2 u2 : String) (rs2 t2 : Int)
    (hinv : tbl.countP (keyMatch m w) ≤ 1) :
    (∀ (m' : String) (w' : Int) (st n u : String) (rs now : Int),
        (submitReview tbl m' rs w' (some st) n u now).1.countP
            (keyMatch m w) ≤ 1) ∧
    ((submitReview (submitReview tbl m rs1 w (some st1) n1 u1 t1).1 m rs2 w
          (some st2) n2 u2 t2).1.countP (keyMatch m w) = 1) ∧
    (∀ x ∈ (submitReview (submitReview tbl m rs1 w (some st1) n1 u1 t1).1 m
          rs2 w (some st2) n2 u2 t2).1,
        keyMatch m w x = true →
          x.status = st2 ∧ x.notes = n2 ∧ x.reviewer = u2 ∧
            x.reviewDate = some t2) := by
  refine ⟨?_, ?_, ?_⟩
  · intro m' w' st n u rs now
    exact countP_mergeReviewStatus_le_one tbl m w m' w' st n u rs now hinv
  · have hinv1 : (submitReview tbl m rs1 w (some st1) n1 u1 t1).1.countP
        (keyMatch m w) ≤ 1 :=
      countP_mergeReviewStatus_le_one tbl m w m w st1 n1 u1 rs1 t1 hinv
    exact countP_mergeReviewStatus_self _ m w st2 n2 u2 rs2 t2 hinv1
  · intro x hx hk
    have hany1 : (submitReview tbl m rs1 w (some st1) n1 u1 t1).1.any
        (keyMatch m w) = true :=
      any_mergeReviewStatus_self tbl m w st1 n1 u1 rs1 t1
    have hx2 : x ∈ ((submitReview tbl m rs1 w (some st1) n1 u1 t1).1).map
        (updateRow m w st2 n2 u2 t2) := by
      have heq : (submitReview (submitReview tbl m rs1 w (some st1) n1 u1
            t1).1 m rs2 w (some st2) n2 u2 t2).1 =
          mergeReviewStatus (submitReview tbl m rs1 w (some st1) n1 u1 t1).1
            m w st2 n2 u2 rs2 t2 := rfl
      rw [heq] at hx
      unfold mergeReviewStatus at hx
      rwa [if_pos hany1] at hx
    exact mem_map_updateRow_fields hx2 hk

theorem c2_witness :
    ([] : List ReviewRow).countP (keyMatch "Acme Co" 0) ≤ 1 ∧
      (submitReview (submitReview [] "Acme Co" 91 0
            (some "Pending Investigation") "first look" "ALICE" 100).1
          "Acme Co" 91 0 (some "Reviewed - Blocked") "fraud ring" "BOB"
          200).1.countP (keyMatch "Acme Co" 0) = 1 :=
  ⟨by decide,
    (c2_upsert_single_row [] "Acme Co" 0 "Pending Investigation" "first look"
        "ALICE" 91 100 "Reviewed - Blocked" "fraud ring" "BOB" 91 200
        (by decide)).2.1⟩

/-- C6 (refuted by the code): the claim says every row produced by the
upsert carries the write-time timestamp as its review date.  The update
branch does set `t.REVIEW_DATE = CURRENT_TIMESTAMP()`, but the
`WHEN NOT MATCHED THEN INSERT` column list (line 148) omits `REVIEW_DATE`,
so a freshly inserted review row has a `NULL` review date: submitting the
first review for Acme Co at write time 1000 yields exactly the inserted row,
and its review date is `none`, not `some 1000`. -/
theorem c6_insert_drops_review_date :
    (submitReview [] "Acme Co" 91 0 (some "Reviewed - Blocked") "" "ALICE"
          1000).1 =
        [insertRow "Acme Co" 0 "Reviewed - Blocked" "" "ALICE" 91] ∧
      ((submitReview [] "Acme Co" 91 0 (some "Reviewed - Blocked") "" "ALICE"
            1000).1.map ReviewRow.reviewDate) = [none] :=
  ⟨rfl, rfl⟩

/-- C9: when the upsert takes the update branch (a row with the key exists),
the table is mapped row-by-row and every field other than status, notes,
reviewer and review date is unchanged — in particular each row keeps its
stored risk score, even though the handler passes the queue entry's risk
score to the statement — and rows not matching the key are completely
unchanged. -/
theorem c9_update_preserves_risk_score (tbl : List ReviewRow) (m : String)
    (w : Int) (st notes user : String) (rs now : Int)
    (h : tbl.any (keyMatch m w) = true) :
    (submitReview tbl m rs w (some st) notes user now).1 =
        tbl.map (updateRow m w st notes user now) ∧
      ∀ t : ReviewRow,
        (updateRow m w st notes user now t).merchantDescription =
            t.merchantDescription ∧
          (updateRow m w st notes user now t).weekStartDate =
            t.weekStartDate ∧
          (updateRow m w st notes user now t).riskScore = t.riskScore ∧
          (keyMatch m w t = false → updateRow m w st notes user now t = t) := by
  constructor
  · show mergeReviewStatus tbl m w st notes user rs now = _
    unfold mergeReviewStatus
    rw [if_pos h]
  · intro t
    by_cases hk : keyMatch m w t = true
    · unfold updateRow
      rw [if_pos hk]
      exact ⟨rfl, rfl, rfl, fun hf => absurd hk (by simp [hf])⟩
    · unfold updateRow
      rw [if_neg hk]
      exact ⟨rfl, rfl, rfl, fun _ => rfl⟩

theorem c9_witness :
    [blockedReview].any (keyMatch "Acme Co" 0) = true ∧
      (submitReview [blockedReview] "Acme Co" 17 0
            (some "Pending Investigation") "reopened" "BOB" 600).1 =
        [blockedReview].map
          (updateRow "Acme Co" 0 "Pending Investigation" "reopened" "BOB" 600) ∧
      (updateRow "Acme Co" 0 "Pending Investigation" "reopened" "BOB" 600
          blockedReview).riskScore = blockedReview.riskScore :=
  ⟨by decide,
    (c9_update_preserves_risk_score [blockedReview] "Acme Co" 0
        "Pending Investigation" "reopened" "BOB" 17 600 (by decide)).1,
    ((c9_update_preserves_risk_score [blockedReview] "Acme Co" 0
        "Pending Investigation" "reopened" "BOB" 17 600 (by decide)).2
      blockedReview).2.2.1⟩

/-! ## Claim theorem for the weekly analytics -/

/-- C7: `load_monitoring_data` truncates each review row's week-start
timestamp to week granularity and groups rows by `(week, status)`: each
result entry's count is the number of table rows with that key, each entry
is witnessed by at least one table row, every table row is covered by some
entry, the `(week, status)` keys are pairwise distinct, and the result is
ordered by week descending then status ascending. -/
theorem c7_weekly_analytics (tbl : List ReviewRow) :
    (∀ e ∈ load_monitoring_data tbl,
        (∃ r ∈ tbl, truncWeek r.weekStartDate = e.1 ∧ r.status = e.2.1) ∧
          e.2.2 = tbl.countP (fun r => decide (analyticsKey r = (e.1, e.2.1)))) ∧
    (∀ r ∈ tbl, ∃ e ∈ load_monitoring_data tbl,
        truncWeek r.weekStartDate = e.1 ∧ r.status = e.2.1) ∧
    ((load_monitoring_data tbl).map (fun e => (e.1, e.2.1))).Nodup ∧
    List.Pairwise weekStatusLE (load_monitoring_data tbl) := by
  refine ⟨?_, ?_, ?_, ?_⟩
  · intro e he
    rw [load_monitoring_data, List.mem_insertionSort, List.mem_map] at he
    obtain ⟨k, hk, hek⟩ := he
    subst hek
    rw [List.mem_dedup, List.mem_map] at hk
    obtain ⟨r, hr, hrk⟩ := hk
    constructor
    · refine ⟨r, hr, ?_, ?_⟩
      · rw [← hrk]; rfl
      · rw [← hrk]; rfl
    · simp
  · intro r hr
    have hkmem : analyticsKey r ∈ (tbl.map analyticsKey).dedup :=
      List.mem_dedup.mpr (List.mem_map.mpr ⟨r, hr, rfl⟩)
    refine ⟨((analyticsKey r).1, (analyticsKey r).2,
        tbl.countP (fun x => decide (analyticsKey x = analyticsKey r))),
      ?_, rfl, rfl⟩
    rw [load_monitoring_data, List.mem_insertionSort, List.mem_map]
    exact ⟨analyticsKey r, hkmem, rfl⟩
  · have hperm : (load_monitoring_data tbl).Perm
        (((tbl.map analyticsKey).dedup).map
          (fun k => (k.1, k.2,
            tbl.countP (fun r => decide (analyticsKey r = k))))) :=
      List.perm_insertionSort _ _
    have h2 : ((((tbl.map analyticsKey).dedup).map
        (fun k => (k.1, k.2,
          tbl.countP (fun r => decide (analyticsKey r = k))))).map
            (fun e => (e.1, e.2.1))).Nodup := by
      rw [List.map_map]
      have hfg : ((fun e : Int × String × Nat => (e.1, e.2.1)) ∘
          (fun k : Int × String => (k.1, k.2,
            tbl.countP (fun r => decide (analyticsKey r = k))))) = id :=
        funext fun k => by simp
      rw [hfg, List.map_id]
      exact List.nodup_dedup _
    exact ((hperm.map (fun e => (e.1, e.2.1))).symm).nodup h2
  · exact List.sorted_insertionSort weekStatusLE _

theorem c7_witness :
    ((load_monitoring_data [blockedReview, benignReview 3]).map
        (fun e => (e.1, e.2.1))).Nodup ∧
      List.Pairwise weekStatusLE
        (load_monitoring_data [blockedReview, benignReview 3]) :=
  ⟨(c7_weekly_analytics [blockedReview, benignReview 3]).2.2.1,
    (c7_weekly_analytics [blockedReview, benignReview 3]).2.2.2⟩

theorem c10_witness :
    noQuote "91".data = true ∧ noQuote "2024-01-01 00:00:00".data = true ∧
      (scanLit false
          (merge_sql "O\x27Brien Pub".data ReviewStatus.blocked
            "owner said it\x27s fine".data (current_user "AL\x27ICE".data)
            "91".data "2024-01-01 00:00:00".data) = true ∧
        noQuote (statusText ReviewStatus.blocked) = true) :=
  ⟨by decide, by decide,
    c10_merge_sql_escaping "O\x27Brien Pub".data "owner said it\x27s fine".data
      "AL\x27ICE".data "91".data "2024-01-01 00:00:00".data
      ReviewStatus.blocked (by decide) (by decide)⟩
